import Mathlib

/-!
Verification of the ray-tracer core embedded in the blog posts of this
repository.  The Rust code samples are shallowly embedded over an arbitrary
`LinearOrderedField` (instantiated at `ℚ` for concrete evaluation and at `ℝ`
when `sqrt`/trigonometric functions appear); `f64` arithmetic is modelled as
exact field arithmetic.
-/

namespace RayTracer

/-- Three-component vector, `Vec3` from the-vec3-class post (aliased `Point3`
and `Color` by convention). -/
structure Vec3 (α : Type*) where
  x : α
  y : α
  z : α
deriving DecidableEq, Repr

/-- Component access `v.e[a]`, used by the AABB slab loop. -/
def Vec3.nth {α : Type*} (v : Vec3 α) : Fin 3 → α
  | 0 => v.x
  | 1 => v.y
  | 2 => v.z

@[simp] lemma Vec3.nth_zero {α : Type*} (v : Vec3 α) : v.nth 0 = v.x := rfl

@[simp] lemma Vec3.nth_one {α : Type*} (v : Vec3 α) : v.nth 1 = v.y := rfl

@[simp] lemma Vec3.nth_two {α : Type*} (v : Vec3 α) : v.nth 2 = v.z := rfl

variable {α : Type*} [LinearOrderedField α]

instance : Add (Vec3 α) := ⟨fun u v => ⟨u.x + v.x, u.y + v.y, u.z + v.z⟩⟩

instance : Neg (Vec3 α) := ⟨fun v => ⟨-v.x, -v.y, -v.z⟩⟩

instance : Sub (Vec3 α) := ⟨fun u v => u + -v⟩

/-- Component-wise product (`impl ops::Mul<Vec3> for Vec3`). -/
instance : Mul (Vec3 α) := ⟨fun u v => ⟨u.x * v.x, u.y * v.y, u.z * v.z⟩⟩

/-- Scalar product (`impl ops::Mul<Vec3> for f64`). -/
instance : SMul α (Vec3 α) := ⟨fun s v => ⟨s * v.x, s * v.y, s * v.z⟩⟩

/-- `impl ops::Div<f64> for Vec3`: `(1.0 / rhs) * self`. -/
def Vec3.divs (v : Vec3 α) (s : α) : Vec3 α := (1 / s) • v

/-- The free function `dot` exactly as printed in the-vec3-class post:
`u.e[0] * v.e[0] + u.e[1] * v.e[1] * u.e[2] * v.e[2]`.  Note the second and
third products are multiplied, not added. -/
def dot (u v : Vec3 α) : α := u.x * v.x + u.y * v.y * u.z * v.z

/-- Modelled from the spec: `Vec3::dot`, the associated function used by the
later posts, whose definition never appears in the repository sources (only
its call sites do).  The spec's contract is the standard Euclidean dot
product. -/
def Vec3.dot (u v : Vec3 α) : α := u.x * v.x + u.y * v.y + u.z * v.z

/-- `Vec3::length_squared`. -/
def Vec3.length_squared (v : Vec3 α) : α := v.x * v.x + v.y * v.y + v.z * v.z

/-- `Vec3::cross` from the-vec3-class post. -/
def cross (u v : Vec3 α) : Vec3 α :=
  ⟨u.y * v.z - u.z * v.y, u.z * v.x - u.x * v.z, u.x * v.y - u.y * v.x⟩

/-- `Ray { origin, direction, time }`. -/
structure Ray (α : Type*) where
  origin : Vec3 α
  direction : Vec3 α
  time : α
deriving DecidableEq, Repr

/-- `Ray::at(t) = origin + t * direction`. -/
def Ray.at (r : Ray α) (t : α) : Vec3 α := r.origin + t • r.direction

/-- `HitRecord::set_face_normal` from the Surface Normals post: computes
`front_face = dot(r.direction(), outward_normal) < 0.0` with the repository's
free `dot` function and stores the outward normal when `front_face`, its
negation otherwise.  Returns the `(front_face, normal)` pair written into the
record. -/
def set_face_normal (r : Ray α) (outward_normal : Vec3 α) : Bool × Vec3 α :=
  let front_face := dot r.direction outward_normal < 0
  (front_face, if front_face then outward_normal else -outward_normal)

/-- `clamp` from the antialiasing post. -/
def clamp (x min max : α) : α :=
  if x < min then min else if x > max then max else x

/-- `write_color` from the gamma-correction section: averages the accumulated
color by `1/samples_per_pixel`, takes the square root of each channel, clamps
to `[0, 0.999]`, scales by `256` and truncates to an unsigned integer (the
Rust `as u32` cast truncates toward zero and saturates at `0` from below,
which on these values is `Nat.floor`). -/
noncomputable def write_color (color : Vec3 ℝ) (samples_per_pixel : ℕ) : ℕ × ℕ × ℕ :=
  let scale : ℝ := 1 / samples_per_pixel
  let r := Real.sqrt (color.x * scale)
  let g := Real.sqrt (color.y * scale)
  let b := Real.sqrt (color.z * scale)
  (⌊256 * clamp r 0 (999 / 1000)⌋₊,
   ⌊256 * clamp g 0 (999 / 1000)⌋₊,
   ⌊256 * clamp b 0 (999 / 1000)⌋₊)

/-- `Aabb { minimum, maximum }` from the where-next post. -/
structure Aabb (α : Type*) where
  minimum : Vec3 α
  maximum : Vec3 α
deriving DecidableEq, Repr

/-- One iteration of the loop body of the optimized `Aabb::hit`.  The
`let t_min = ...` / `let t_max = ...` bindings in the Rust source are scoped
to a single iteration of the `for` loop (they shadow the immutable function
parameters), so every axis is tested against the original interval; the test
for axis `a` is therefore a self-contained function of the parameters. -/
def Aabb.axisTest (b : Aabb α) (r : Ray α) (t_min t_max : α) (a : Fin 3) : Bool :=
  let inv_d := 1 / r.direction.nth a
  let t0 := (b.minimum.nth a - r.origin.nth a) * inv_d
  let t1 := (b.maximum.nth a - r.origin.nth a) * inv_d
  let t0s := if inv_d < 0 then t1 else t0
  let t1s := if inv_d < 0 then t0 else t1
  let t_min2 := if t0s > t_min then t0s else t_min
  let t_max2 := if t1s < t_max then t1s else t_max
  !(decide (t_max2 ≤ t_min2))

/-- The optimized `Aabb::hit` of the where-next post: the three axis tests in
sequence, returning `false` as soon as one fails. -/
def Aabb.hit (b : Aabb α) (r : Ray α) (t_min t_max : α) : Bool :=
  b.axisTest r t_min t_max 0 && b.axisTest r t_min t_max 1 && b.axisTest r t_min t_max 2

/-- One axis of the first (division-based) version of `Aabb::hit`. -/
def Aabb.axisTestFirst (b : Aabb α) (r : Ray α) (t_min t_max : α) (a : Fin 3) : Bool :=
  let t0 := min ((b.minimum.nth a - r.origin.nth a) / r.direction.nth a)
              ((b.maximum.nth a - r.origin.nth a) / r.direction.nth a)
  let t1 := max ((b.minimum.nth a - r.origin.nth a) / r.direction.nth a)
              ((b.maximum.nth a - r.origin.nth a) / r.direction.nth a)
  !(decide (min t1 t_max ≤ max t0 t_min))

/-- The first version of `Aabb::hit` from the where-next post. -/
def Aabb.hitFirst (b : Aabb α) (r : Ray α) (t_min t_max : α) : Bool :=
  b.axisTestFirst r t_min t_max 0 && b.axisTestFirst r t_min t_max 1 &&
    b.axisTestFirst r t_min t_max 2

/-- `Aabb::surrounding_box`: component-wise min of minima, max of maxima. -/
def Aabb.surrounding_box (box0 box1 : Aabb α) : Aabb α :=
  ⟨⟨min box0.minimum.x box1.minimum.x, min box0.minimum.y box1.minimum.y,
    min box0.minimum.z box1.minimum.z⟩,
   ⟨max box0.maximum.x box1.maximum.x, max box0.maximum.y box1.maximum.y,
    max box0.maximum.z box1.maximum.z⟩⟩

/-- Spec-side definition of one tightening step, following the claim's words
rather than the repository code: the slab entry/exit parameters for one axis
tighten the running interval, and the step fails when the tightened interval
becomes empty. -/
def Aabb.tightenStep (b : Aabb α) (r : Ray α) (a : Fin 3) (tn tx : α) :
    Option (α × α) :=
  let inv_d := 1 / r.direction.nth a
  let t0 := (b.minimum.nth a - r.origin.nth a) * inv_d
  let t1 := (b.maximum.nth a - r.origin.nth a) * inv_d
  let t0s := if inv_d < 0 then t1 else t0
  let t1s := if inv_d < 0 then t0 else t1
  let tn2 := if t0s > tn then t0s else tn
  let tx2 := if t1s < tx then t1s else tx
  if tx2 ≤ tn2 then none else some (tn2, tx2)

/-- Spec-side definition, following the claim's words rather than the
repository code: the slab test that carries the tightened `[t_min, t_max]`
interval from each axis into the later ones, returning `false` exactly when
the running interval becomes empty. -/
def Aabb.hitTightened (b : Aabb α) (r : Ray α) (t_min t_max : α) : Bool :=
  (((b.tightenStep r 0 t_min t_max).bind fun p =>
      (b.tightenStep r 1 p.1 p.2).bind fun q =>
        b.tightenStep r 2 q.1 q.2).isSome : Bool)

/-- `XyRect` (material pointer omitted: no claim depends on it). -/
structure XyRect (α : Type*) where
  x0 : α
  x1 : α
  y0 : α
  y1 : α
  k : α
deriving DecidableEq, Repr

/-- `XyRect::bounding_box`: pads the `z` axis by `0.0001` around `k`. -/
def XyRect.bounding_box (rect : XyRect α) : Aabb α :=
  ⟨⟨rect.x0, rect.y0, rect.k - 1 / 10000⟩, ⟨rect.x1, rect.y1, rect.k + 1 / 10000⟩⟩

/-- `XzRect` (material pointer omitted). -/
structure XzRect (α : Type*) where
  x0 : α
  x1 : α
  z0 : α
  z1 : α
  k : α
deriving DecidableEq, Repr

/-- `XzRect::bounding_box` exactly as in the source:
`Aabb::new(Point3::new(x0, z0, k - 0.0001), Point3::new(x1, z1, k + 0.0001))`
— the `z` extent is written into the `y` component and `k` into the `z`
component. -/
def XzRect.bounding_box (rect : XzRect α) : Aabb α :=
  ⟨⟨rect.x0, rect.z0, rect.k - 1 / 10000⟩, ⟨rect.x1, rect.z1, rect.k + 1 / 10000⟩⟩

/-- `YzRect` (material pointer omitted). -/
structure YzRect (α : Type*) where
  y0 : α
  y1 : α
  z0 : α
  z1 : α
  k : α
deriving DecidableEq, Repr

/-- `YzRect::bounding_box` exactly as in the source:
`Aabb::new(Point3::new(y0, z0, k - 0.0001), Point3::new(y1, z1, k + 0.0001))`. -/
def YzRect.bounding_box (rect : YzRect α) : Aabb α :=
  ⟨⟨rect.y0, rect.z0, rect.k - 1 / 10000⟩, ⟨rect.y1, rect.z1, rect.k + 1 / 10000⟩⟩

/-- `HitRecord` (material pointer factored out: the embedding pairs a record
with its material where needed). -/
structure HitRecord (α : Type*) where
  p : Vec3 α
  normal : Vec3 α
  t : α
  u : α
  v : α
  front_face : Bool

/-- A `Material`: `emitted(u, v, p)` and
`scatter(ray_in, rec) -> Option (attenuation, scattered)`, the shape of the
Rust trait (`scatter` returning `bool` with two out-parameters). -/
structure Material (α : Type*) where
  emitted : α → α → Vec3 α → Vec3 α
  scatter : Ray α → HitRecord α → Option (Vec3 α × Ray α)

/-- `ray_color` from part_010: the scene is abstracted as the function
answering `world.hit(r, 0.001, infinity)` — the world takes the ray and the
`t_min` bound `0.001` and reports the closest hit (the unbounded `t_max` is
folded into the world function), returning the record together with its
material.  Depth counts down to the black cutoff. -/
def ray_color (world : Ray α → α → Option (HitRecord α × Material α))
    (background : Vec3 α) : Ray α → ℕ → Vec3 α
  | _, 0 => ⟨0, 0, 0⟩
  | r, Nat.succ depth =>
    match world r (1 / 1000) with
    | none => background
    | some (rec, mat) =>
      let emitted := mat.emitted rec.u rec.v rec.p
      match mat.scatter r rec with
      | none => emitted
      | some (attenuation, scattered) =>
        emitted + attenuation * ray_color world background scattered depth

/-- `XzRect::hit`: solve for the ray parameter on the plane `y = k`, reject
outside `[t_min, t_max]` or outside the rectangle, otherwise report the hit
parameter (the further record fields play no role in the claims below). -/
def XzRect.hit (rect : XzRect α) (r : Ray α) (t_min t_max : α) : Option α :=
  let t := (rect.k - r.origin.y) / r.direction.y
  if t < t_min ∨ t > t_max then none
  else
    let x := r.origin.x + t * r.direction.x
    let z := r.origin.z + t * r.direction.z
    if x < rect.x0 ∨ x > rect.x1 ∨ z < rect.z0 ∨ z > rect.z1 then none
    else some t

/-- `Vec3::length`: `sqrt(length_squared)`. -/
noncomputable def Vec3.length (v : Vec3 ℝ) : ℝ := Real.sqrt v.length_squared

/-- The free `unit_vector` from part_005: `v / v.length()` (the later posts
call the associated `Vec3::unit_vector`, whose body is not shown again;
this is the repository's only definition). -/
noncomputable def unit_vector (v : Vec3 ℝ) : Vec3 ℝ := v.divs v.length

/-- Modelled from the spec: `Vec3::reflect`, used by the Metal and Dielectric
posts but never defined in the repository sources; the spec gives
`reflect(v, n) = v - 2*dot(v, n)*n`. -/
def Vec3.reflect (v n : Vec3 α) : Vec3 α := v - (2 * Vec3.dot v n) • n

/-- `Vec3::refract` from part_006. -/
noncomputable def Vec3.refract (uv n : Vec3 ℝ) (etai_over_etat : ℝ) : Vec3 ℝ :=
  let cos_theta := Vec3.dot (-uv) n
  let r_out_perp := etai_over_etat • (uv + cos_theta • n)
  let r_out_parallel := (-(Real.sqrt |1 - r_out_perp.length_squared|)) • n
  r_out_perp + r_out_parallel

/-- `f64::atan2(y, x)` modelled as the argument of the complex number
`x + y i` (the same piecewise-arctangent function, with value in
`(-π, π]` and `atan2(0, 0) = 0`). -/
noncomputable def atan2 (y x : ℝ) : ℝ := Complex.arg ⟨x, y⟩

/-- `get_sphere_uv` exactly as printed in part_010:
`theta = f64::cos(-p.y())` (sic — `cos`, not `acos`),
`phi = f64::atan2(-p.z(), p.x()) + PI`, `u = phi / (2 PI)`,
`v = theta / PI`. -/
noncomputable def get_sphere_uv (p : Vec3 ℝ) : ℝ × ℝ :=
  let theta := Real.cos (-p.y)
  let phi := atan2 (-p.z) p.x + Real.pi
  (phi / (2 * Real.pi), theta / Real.pi)

/-- `Dielectric::reflectance` (Schlick approximation) from part_006. -/
def Dielectric.reflectance (cosine ref_idx : α) : α :=
  let r0 := (1 - ref_idx) / (1 + ref_idx)
  let r0 := r0 * r0
  r0 + (1 - r0) * (1 - cosine) ^ 5

/-- `Dielectric::scatter` from part_009.  `self.ir` is the parameter `ir`;
the one call to the global `random()` is passed in as `rand`; `refr` is the
local `refraction_ratio`. -/
noncomputable def Dielectric.scatter (ir : ℝ) (r_in : Ray ℝ) (rec : HitRecord ℝ)
    (rand : ℝ) : Option (Vec3 ℝ × Ray ℝ) :=
  let attenuation : Vec3 ℝ := ⟨1, 1, 1⟩
  let refr := if rec.front_face then 1 / ir else ir
  let unit_direction := unit_vector r_in.direction
  let cos_theta := min (Vec3.dot (-unit_direction) rec.normal) 1
  let sin_theta := Real.sqrt (1 - cos_theta * cos_theta)
  let direction :=
    if refr * sin_theta > 1 ∨ Dielectric.reflectance cos_theta refr > rand then
      Vec3.reflect unit_direction rec.normal
    else
      Vec3.refract unit_direction rec.normal refr
  some (attenuation, ⟨rec.p, direction, r_in.time⟩)

/-- An abstract scene object as BVH construction sees it: the `Hittable`'s
`hit` method (a hit record reduced to its parameter `t`, the only field the
equivalence claim compares) and the box reported by its `bounding_box`
method (the claim's premise is that every object has one). -/
structure Obj (α : Type*) where
  hit : Ray α → α → α → Option α
  box : Aabb α

/-- `HittableList::hit`: linear scan with state `(record so far,
closest_so_far)`, the latter seeded at `t_max`; each accepted hit overwrites
the record and narrows the interval to its `t`. -/
def listHit (objects : List (Obj α)) (r : Ray α) (t_min t_max : α) : Option α :=
  (objects.foldl
    (fun st o =>
      match o.hit r t_min st.2 with
      | some t2 => (some t2, t2)
      | none => st)
    ((none : Option α), t_max)).1

/-- The `BvhNode` shape: two children (leaves are the original `Hittable`s)
and the stored bounding box. -/
inductive BvhTree (α : Type*) where
  | leaf : Obj α → BvhTree α
  | node : BvhTree α → BvhTree α → Aabb α → BvhTree α

/-- What `bounding_box` reports: the object's box at a leaf, the stored box
at an interior node. -/
def BvhTree.box : BvhTree α → Aabb α
  | .leaf o => o.box
  | .node _ _ b => b

/-- `BvhNode::hit`: prune on the node's own box; otherwise test the left
child, tighten `t_max` to the left hit's `t` if it hit, test the right
child, and return the record of the last successful write (the closer hit,
thanks to the tightened interval). -/
def BvhTree.hit : BvhTree α → Ray α → α → α → Option α
  | .leaf o, r, t_min, t_max => o.hit r t_min t_max
  | .node l rt b, r, t_min, t_max =>
    if b.hit r t_min t_max = false then none
    else
      match l.hit r t_min t_max with
      | some t1 =>
        match rt.hit r t_min t1 with
        | some t2 => some t2
        | none => some t1
      | none => rt.hit r t_min t_max

/-- The multiset of original objects at the leaves of a tree. -/
def BvhTree.leaves : BvhTree α → List (Obj α)
  | .leaf o => [o]
  | .node l rt _ => l.leaves ++ rt.leaves

/-- `box_compare` as a boolean "less-or-equal" for `sort_by` (ascending by
the box minimum on the chosen axis). -/
def boxLe (axis : Fin 3) (a b : Obj α) : Bool :=
  decide (a.box.minimum.nth axis ≤ b.box.minimum.nth axis)

/-- `comparator(a, b) == Ordering::Less`: strict comparison of box minima on
the chosen axis, used for the two-object base case. -/
def boxLess (axis : Fin 3) (a b : Obj α) : Bool :=
  decide (a.box.minimum.nth axis < b.box.minimum.nth axis)

/-- `BvhNode::new`.  The slice `objects[start..end]` is the list `objs`; the
axis drawn by `random_usize_in_range(0, 3)` at each recursive invocation is
supplied by the oracle `rng` (indexed by the node's position, covering every
possible sequence of draws); one object aliases the same leaf into both
children; two objects are ordered by the comparator; otherwise the slice is
sorted by box minimum on the axis and split at `mid = span / 2`.  The node
box is the surrounding box of the children's boxes.  (Rust would loop
forever on an empty slice; the empty case returns a never-hitting leaf with
the zero box and is excluded by the claim's premise.) -/
def buildBvh (rng : ℕ → Fin 3) (ctr : ℕ) (objs : List (Obj α)) : BvhTree α :=
  let axis := rng ctr
  match objs with
  | [] => .leaf ⟨fun _ _ _ => none, ⟨⟨0, 0, 0⟩, ⟨0, 0, 0⟩⟩⟩
  | [a] => .node (.leaf a) (.leaf a) (Aabb.surrounding_box a.box a.box)
  | [a, b] =>
    if boxLess axis a b then
      .node (.leaf a) (.leaf b) (Aabb.surrounding_box a.box b.box)
    else
      .node (.leaf b) (.leaf a) (Aabb.surrounding_box b.box a.box)
  | a :: b :: c :: tl =>
    let sorted := (a :: b :: c :: tl).mergeSort (boxLe axis)
    let mid := (a :: b :: c :: tl).length / 2
    let lt := buildBvh rng (2 * ctr + 1) (sorted.take mid)
    let rt := buildBvh rng (2 * ctr + 2) (sorted.drop mid)
    .node lt rt (Aabb.surrounding_box lt.box rt.box)
  termination_by objs.length
  decreasing_by
  · simp only [List.length_take, List.length_mergeSort, List.length_cons]
    omega
  · simp only [List.length_drop, List.length_mergeSort, List.length_cons]
    omega

/-- "`h` reports the closest candidate strictly inside the query interval":
a `some` result is a candidate in the open interval and minimal among the
candidates there; a `none` result means no candidate lies in the interval. -/
def HitBehav (h : α → α → Option α) (T : List α) : Prop :=
  (∀ t_min t_max t, h t_min t_max = some t →
      t ∈ T ∧ t_min < t ∧ t < t_max ∧ ∀ u ∈ T, t_min < u → u < t_max → t ≤ u) ∧
    ∀ t_min t_max, h t_min t_max = none → ∀ u ∈ T, ¬(t_min < u ∧ u < t_max)

/-- The box is conservative for the candidate set: whenever some candidate
lies strictly inside the query interval, `Aabb::hit` passes. -/
def BoxSound (b : Aabb α) (r : Ray α) (T : List α) : Prop :=
  ∀ t_min t_max : α, (∃ u ∈ T, t_min < u ∧ u < t_max) → b.hit r t_min t_max = true

/-- The equivalence claim's premise on one scene object, relative to a fixed
ray: its `hit` method reports the closest of a fixed candidate set of hit
parameters, and its bounding box passes the slab test whenever a candidate
lies inside the query interval (what a geometric `Hittable` with a correct,
conservative bounding box provides). -/
def SoundObj (o : Obj α) (r : Ray α) : Prop :=
  ∃ T : List α, HitBehav (o.hit r) T ∧ BoxSound o.box r T

/-- Trees as produced by `BvhNode::new`: every interior box is the
surrounding box of the children's boxes. -/
def WellBuilt : BvhTree α → Prop
  | .leaf _ => True
  | .node l rt b => WellBuilt l ∧ WellBuilt rt ∧ b = Aabb.surrounding_box l.box rt.box

/-- The combined candidate set of a list of objects, given a choice `Ts` of
candidate set per object. -/
def objsT (Ts : Obj α → List α) (objs : List (Obj α)) : List α := objs.flatMap Ts

/-- The running state of the linear scan, relative to the candidates `S` of
the objects already scanned: an accepted record is the closest candidate of
`S` inside the interval and equals `closest_so_far`; no record means
`closest_so_far` is still `t_max` and no candidate of `S` is inside. -/
def ScanInv (t_min t_max : α) (S : List α) : Option α × α → Prop
  | (some t, c) => c = t ∧ t ∈ S ∧ t_min < t ∧ t < t_max ∧
      ∀ u ∈ S, t_min < u → u < t_max → t ≤ u
  | (none, c) => c = t_max ∧ ∀ u ∈ S, ¬(t_min < u ∧ u < t_max)

/-- The index exchange performed by one in-place swap
`tmp = p[i]; p[i] = p[target]; p[target] = tmp`. -/
def transp (a b x : ℕ) : ℕ := if x = a then b else if x = b then a else x

/-- One in-place swap of entries `a` and `b` of an array modelled as a total
function. -/
def arrSwap (p : ℕ → ℤ) (a b : ℕ) : ℕ → ℤ := fun x => p (transp a b x)

/-- `permute(p, n)` from the perlin-noise post: `for i in (1..n-1).rev()`
swap `p[i]` with `p[target_i]`.  The targets come from
`random_usize_in_range(0, i)`, which is not defined in the repository
sources; the draws are supplied as the oracle `targets` (modelled from the
spec: a uniformly random earlier index). -/
def permute (targets : ℕ → ℕ) (p : ℕ → ℤ) (n : ℕ) : ℕ → ℤ :=
  ((List.range' 1 (n - 2)).reverse).foldl (fun q i => arrSwap q i (targets i)) p

/-- `perlin_generate_perm()`: the identity array `p[i] = i as i32` of length
`POINT_COUNT = 256`, then `permute(&mut p, POINT_COUNT)`. -/
def perlin_generate_perm (targets : ℕ → ℕ) : ℕ → ℤ :=
  permute targets (fun i => (i : ℤ)) 256

/-- `((x + d) & 255) as usize` on an `i32`: two's-complement AND with `255`
is the nonnegative residue mod `256`. -/
def mask255 (x : ℤ) : ℕ := (x % 256).toNat

/-- The table index
`(perm_x[(i+di)&255] ^ perm_y[(j+dj)&255] ^ perm_z[(k+dk)&255]) as usize`
from `Perlin::noise` (the arguments here are the already-offset lattice
coordinates `i+di`, …); the entries are `i32` values in `[0, 256)`, on which
`i32` XOR agrees with natural-number XOR. -/
def perlinHash (px py pz : ℕ → ℤ) (i j k : ℤ) : ℕ :=
  ((px (mask255 i)).toNat ^^^ (py (mask255 j)).toNat) ^^^ (pz (mask255 k)).toNat

/-- A valid permutation table: all 256 entries in `[0, 256)`, no two of the
256 slots equal (hence a permutation of `0..255`), and the last entry still
`255`. -/
def PermTable (p : ℕ → ℤ) : Prop :=
  (∀ m, m < 256 → 0 ≤ p m ∧ p m < 256) ∧
    (∀ m1, m1 < 256 → ∀ m2, m2 < 256 → p m1 = p m2 → m1 = m2) ∧
    p 255 = 255

/-- The in-bounds property of every table access in `Perlin::noise`: masked
lattice indices below 256, and the XOR hash of three table entries below
256 (so `ranvec[hash]` is in bounds). -/
def hashInBounds : Prop :=
  ∀ px py pz : ℕ → ℤ, PermTable px → PermTable py → PermTable pz →
    ∀ i j k : ℤ, mask255 i < 256 ∧ mask255 j < 256 ∧ mask255 k < 256 ∧
      perlinHash px py pz i j k < 256

end RayTracer

namespace RayTracer

variable {α : Type*} [LinearOrderedField α]

/-- C3: the free function `dot` of the-vec3-class post is not the Euclidean
dot product: at `u = v = (0, 0, 1)` it returns `0` while
`u[0]*v[0] + u[1]*v[1] + u[2]*v[2] = 1`.  (The printed snippet multiplies the
`y` and `z` terms instead of adding them; every later post and the post's own
mathematics require the standard dot product.) -/
theorem dot_typo_bug :
    dot (⟨0, 0, 1⟩ : Vec3 ℚ) ⟨0, 0, 1⟩ = 0 ∧
      (0 : ℚ) * 0 + 0 * 0 + 1 * 1 = 1 ∧
      dot (⟨0, 0, 1⟩ : Vec3 ℚ) ⟨0, 0, 1⟩ ≠
        Vec3.dot (⟨0, 0, 1⟩ : Vec3 ℚ) ⟨0, 0, 1⟩ := by
  refine ⟨by norm_num [dot], by norm_num, ?_⟩
  norm_num [dot, Vec3.dot]

/-- Any clamped channel is at most `0.999`, so the emitted integer is at most
`255`. -/
lemma floor_clamp_le (x : ℝ) : ⌊256 * clamp x 0 (999 / 1000)⌋₊ ≤ 255 := by
  have h : 256 * clamp x 0 (999 / 1000) ≤ 256 * (999 / 1000) := by
    have : clamp x 0 (999 / 1000) ≤ 999 / 1000 := by
      unfold clamp
      split_ifs with h1 h2 <;> [norm_num; exact le_refl _; linarith]
    linarith
  rcases le_or_lt 0 (256 * clamp x 0 (999 / 1000)) with hx | hx
  · have : ⌊256 * clamp x 0 (999 / 1000)⌋₊ < 256 := by
      rw [Nat.floor_lt hx]
      linarith
    omega
  · simp [Nat.floor_of_nonpos hx.le]

/-- C9: `write_color` emits, per channel, the integer truncation of
`256 * clamp(sqrt(channel / n), 0, 0.999)` (averaging by `1/n`, gamma-2
square root, clamp to `[0, 0.999]`, scale into `[0, 256)`), and every emitted
integer lies in `[0, 255]`. -/
theorem write_color_spec (c : Vec3 ℝ) (n : ℕ) :
    write_color c n =
      (⌊256 * clamp (Real.sqrt (c.x / n)) 0 (999 / 1000)⌋₊,
       ⌊256 * clamp (Real.sqrt (c.y / n)) 0 (999 / 1000)⌋₊,
       ⌊256 * clamp (Real.sqrt (c.z / n)) 0 (999 / 1000)⌋₊) ∧
    (write_color c n).1 ≤ 255 ∧ (write_color c n).2.1 ≤ 255 ∧
      (write_color c n).2.2 ≤ 255 := by
  refine ⟨by simp only [write_color, mul_one_div], ?_, ?_, ?_⟩ <;>
    exact floor_clamp_le _

/-- C4: the front-face invariant fails on the repository code.  At ray
direction `(0, 3, 1)` and outward normal `(0, 1, -1)` the typo'd free `dot`
evaluates to `-3 < 0`, so `set_face_normal` stores the outward normal
unnegated — yet the Euclidean dot product of direction and stored normal is
`2 > 0`, violating `dot(ray.direction, record.normal) <= 0`. -/
theorem set_face_normal_bug :
    (set_face_normal (⟨⟨0, 0, 0⟩, ⟨0, 3, 1⟩, 0⟩ : Ray ℚ) ⟨0, 1, -1⟩).2 = ⟨0, 1, -1⟩ ∧
      Vec3.dot (⟨0, 3, 1⟩ : Vec3 ℚ)
        (set_face_normal (⟨⟨0, 0, 0⟩, ⟨0, 3, 1⟩, 0⟩ : Ray ℚ) ⟨0, 1, -1⟩).2 > 0 := by
  constructor
  · norm_num [set_face_normal, dot]
  · norm_num [set_face_normal, dot, Vec3.dot]

/-- C6: `XyRect::bounding_box` pads the zero-thickness `z` axis as claimed,
but `XzRect::bounding_box` and `YzRect::bounding_box` do not pad their
zero-thickness axes (`y` resp. `x`): at `x0=0, x1=1, z0=2, z1=3, k=5` the
`XzRect` box spans `[2, 3]` on `y` and `[5 ± 10⁻⁴]` on `z` instead of
`[5 ± 10⁻⁴]` on `y` and `[2, 3]` on `z` (and symmetrically for `YzRect`), so
the rectangle is not even contained in its own bounding box. -/
theorem rect_bounding_box_bug :
    XyRect.bounding_box (⟨0, 1, 2, 3, 5⟩ : XyRect ℚ) =
        ⟨⟨0, 2, 5 - 1 / 10000⟩, ⟨1, 3, 5 + 1 / 10000⟩⟩ ∧
      XzRect.bounding_box (⟨0, 1, 2, 3, 5⟩ : XzRect ℚ) ≠
        ⟨⟨0, 5 - 1 / 10000, 2⟩, ⟨1, 5 + 1 / 10000, 3⟩⟩ ∧
      XzRect.bounding_box (⟨0, 1, 2, 3, 5⟩ : XzRect ℚ) =
        ⟨⟨0, 2, 5 - 1 / 10000⟩, ⟨1, 3, 5 + 1 / 10000⟩⟩ ∧
      YzRect.bounding_box (⟨0, 1, 2, 3, 5⟩ : YzRect ℚ) ≠
        ⟨⟨5 - 1 / 10000, 0, 2⟩, ⟨5 + 1 / 10000, 1, 3⟩⟩ := by
  refine ⟨rfl, ?_, rfl, ?_⟩ <;>
    · norm_num [XzRect.bounding_box, YzRect.bounding_box, Aabb.mk.injEq, Vec3.mk.injEq]

/-- C5 counterexample: the optimized `Aabb::hit` does not carry the tightened
interval across axes.  For the unit box and the ray from `(-5, 1/2, 1/2)` in
direction `(1, 1, 1)` over `[-10, 10]`, the `x` slab is `[5, 6]` and the `y`
slab `[-1/2, 1/2]`; each axis individually intersects `[-10, 10]`, so the
code returns `true`, but threading the tightened bounds (as the claim
describes) empties the interval on the `y` axis and yields `false` — the ray
misses the box. -/
theorem aabb_hit_counterexample :
    Aabb.hit (⟨⟨0, 0, 0⟩, ⟨1, 1, 1⟩⟩ : Aabb ℚ)
        ⟨⟨-5, 1 / 2, 1 / 2⟩, ⟨1, 1, 1⟩, 0⟩ (-10) 10 = true ∧
      Aabb.hitTightened (⟨⟨0, 0, 0⟩, ⟨1, 1, 1⟩⟩ : Aabb ℚ)
        ⟨⟨-5, 1 / 2, 1 / 2⟩, ⟨1, 1, 1⟩, 0⟩ (-10) 10 = false := by
  constructor
  · norm_num [Aabb.hit, Aabb.axisTest]
  · norm_num [Aabb.hitTightened, Aabb.tightenStep]

lemma ite_gt_eq_max (a b : α) : (if a > b then a else b) = max a b := by
  rcases le_or_lt a b with h | h
  · rw [if_neg (not_lt.mpr h), max_eq_right h]
  · rw [if_pos h, max_eq_left h.le]

lemma ite_lt_eq_min (a b : α) : (if a < b then a else b) = min a b := by
  rcases le_or_lt b a with h | h
  · rw [if_neg (not_lt.mpr h), min_eq_right h]
  · rw [if_pos h, min_eq_left h.le]

/-- For a nonzero direction component and an ordered box, the code's
`(t0, t1)` pair (products with the reciprocal, swapped when the reciprocal is
negative) is the ordered pair of the two slab-crossing parameters. -/
lemma axisTest_eq_true_iff (b : Aabb α) (r : Ray α) (t_min t_max : α) (a : Fin 3)
    (hd : r.direction.nth a ≠ 0)
    (hb : b.minimum.nth a ≤ b.maximum.nth a) :
    b.axisTest r t_min t_max a = true ↔
      max (min ((b.minimum.nth a - r.origin.nth a) / r.direction.nth a)
            ((b.maximum.nth a - r.origin.nth a) / r.direction.nth a)) t_min
        < min (max ((b.minimum.nth a - r.origin.nth a) / r.direction.nth a)
            ((b.maximum.nth a - r.origin.nth a) / r.direction.nth a)) t_max := by
  have hsub : b.minimum.nth a - r.origin.nth a ≤ b.maximum.nth a - r.origin.nth a := by
    linarith
  unfold Aabb.axisTest
  simp only [mul_one_div, ite_gt_eq_max, ite_lt_eq_min, Bool.not_eq_true',
    decide_eq_false_iff_not, not_le]
  rcases hd.lt_or_lt with hneg | hpos
  · have hinv : (1 : α) / r.direction.nth a < 0 := one_div_neg.mpr hneg
    have h01 : (b.maximum.nth a - r.origin.nth a) / r.direction.nth a ≤
        (b.minimum.nth a - r.origin.nth a) / r.direction.nth a := by
      rw [div_eq_mul_inv, div_eq_mul_inv]
      exact mul_le_mul_of_nonpos_right hsub (inv_nonpos.mpr hneg.le)
    rw [if_pos hinv, if_pos hinv, min_eq_right h01, max_eq_left h01]
  · have hinv : ¬(1 : α) / r.direction.nth a < 0 :=
      not_lt.mpr (one_div_nonneg.mpr hpos.le)
    have h01 : (b.minimum.nth a - r.origin.nth a) / r.direction.nth a ≤
        (b.maximum.nth a - r.origin.nth a) / r.direction.nth a := by
      rw [div_eq_mul_inv, div_eq_mul_inv]
      exact mul_le_mul_of_nonneg_right hsub (inv_nonneg.mpr hpos.le)
    rw [if_neg hinv, if_neg hinv, min_eq_left h01, max_eq_right h01]

/-- The first, division-based `Aabb::hit` axis test in the same normal form
(no hypotheses needed: it orders the two quotients itself). -/
lemma axisTestFirst_eq_true_iff (b : Aabb α) (r : Ray α) (t_min t_max : α) (a : Fin 3) :
    b.axisTestFirst r t_min t_max a = true ↔
      max (min ((b.minimum.nth a - r.origin.nth a) / r.direction.nth a)
            ((b.maximum.nth a - r.origin.nth a) / r.direction.nth a)) t_min
        < min (max ((b.minimum.nth a - r.origin.nth a) / r.direction.nth a)
            ((b.maximum.nth a - r.origin.nth a) / r.direction.nth a)) t_max := by
  unfold Aabb.axisTestFirst
  simp only [Bool.not_eq_true', decide_eq_false_iff_not, not_le]

/-- C5 (amended): each axis of the optimized `Aabb::hit` tests the slab
interval against the ORIGINAL `[t_min, t_max]` (the shadowed `let` bindings
do not persist across loop iterations).  For rays whose direction components
are all nonzero and boxes with `min ≤ max` per axis, the function returns
`true` iff for every axis the interval between the two slab-crossing
parameters overlaps `(t_min, t_max)` with nonempty interior, and it agrees
with the first, division-based version. -/
theorem aabb_hit_amended (b : Aabb α) (r : Ray α) (t_min t_max : α)
    (hd : ∀ a : Fin 3, r.direction.nth a ≠ 0)
    (hb : ∀ a : Fin 3, b.minimum.nth a ≤ b.maximum.nth a) :
    b.hit r t_min t_max = b.hitFirst r t_min t_max ∧
      (b.hit r t_min t_max = true ↔ ∀ a : Fin 3,
        max (min ((b.minimum.nth a - r.origin.nth a) / r.direction.nth a)
              ((b.maximum.nth a - r.origin.nth a) / r.direction.nth a)) t_min
          < min (max ((b.minimum.nth a - r.origin.nth a) / r.direction.nth a)
              ((b.maximum.nth a - r.origin.nth a) / r.direction.nth a)) t_max) := by
  have hiff : b.hit r t_min t_max = true ↔ ∀ a : Fin 3,
      max (min ((b.minimum.nth a - r.origin.nth a) / r.direction.nth a)
            ((b.maximum.nth a - r.origin.nth a) / r.direction.nth a)) t_min
        < min (max ((b.minimum.nth a - r.origin.nth a) / r.direction.nth a)
            ((b.maximum.nth a - r.origin.nth a) / r.direction.nth a)) t_max := by
    unfold Aabb.hit
    simp only [Bool.and_eq_true, axisTest_eq_true_iff b r t_min t_max _ (hd _) (hb _)]
    constructor
    · rintro ⟨⟨h0, h1⟩, h2⟩ a
      fin_cases a <;> assumption
    · intro h
      exact ⟨⟨h 0, h 1⟩, h 2⟩
  have hiff2 : b.hitFirst r t_min t_max = true ↔ ∀ a : Fin 3,
      max (min ((b.minimum.nth a - r.origin.nth a) / r.direction.nth a)
            ((b.maximum.nth a - r.origin.nth a) / r.direction.nth a)) t_min
        < min (max ((b.minimum.nth a - r.origin.nth a) / r.direction.nth a)
            ((b.maximum.nth a - r.origin.nth a) / r.direction.nth a)) t_max := by
    unfold Aabb.hitFirst
    simp only [Bool.and_eq_true, axisTestFirst_eq_true_iff]
    constructor
    · rintro ⟨⟨h0, h1⟩, h2⟩ a
      fin_cases a <;> assumption
    · intro h
      exact ⟨⟨h 0, h 1⟩, h 2⟩
  refine ⟨?_, hiff⟩
  rw [Bool.eq_iff_iff, hiff, hiff2]

/-- Witness for `aabb_hit_amended` at the unit box and the ray from
`(-2, 1/2, 1/2)` in direction `(1, 2, 3)`. -/
theorem aabb_hit_amended_witness :
    ((∀ a : Fin 3, Vec3.nth (⟨1, 2, 3⟩ : Vec3 ℚ) a ≠ 0) ∧
      (∀ a : Fin 3, Vec3.nth (⟨0, 0, 0⟩ : Vec3 ℚ) a ≤ Vec3.nth (⟨1, 1, 1⟩ : Vec3 ℚ) a)) ∧
      ((⟨⟨0, 0, 0⟩, ⟨1, 1, 1⟩⟩ : Aabb ℚ).hit ⟨⟨-2, 1 / 2, 1 / 2⟩, ⟨1, 2, 3⟩, 0⟩ 0 100 =
          (⟨⟨0, 0, 0⟩, ⟨1, 1, 1⟩⟩ : Aabb ℚ).hitFirst ⟨⟨-2, 1 / 2, 1 / 2⟩, ⟨1, 2, 3⟩, 0⟩ 0 100 ∧
        ((⟨⟨0, 0, 0⟩, ⟨1, 1, 1⟩⟩ : Aabb ℚ).hit ⟨⟨-2, 1 / 2, 1 / 2⟩, ⟨1, 2, 3⟩, 0⟩ 0 100 = true ↔
          ∀ a : Fin 3,
            max (min ((Vec3.nth (⟨0, 0, 0⟩ : Vec3 ℚ) a - Vec3.nth ⟨-2, 1 / 2, 1 / 2⟩ a) /
                  Vec3.nth (⟨1, 2, 3⟩ : Vec3 ℚ) a)
                ((Vec3.nth (⟨1, 1, 1⟩ : Vec3 ℚ) a - Vec3.nth ⟨-2, 1 / 2, 1 / 2⟩ a) /
                  Vec3.nth (⟨1, 2, 3⟩ : Vec3 ℚ) a)) 0
              < min (max ((Vec3.nth (⟨0, 0, 0⟩ : Vec3 ℚ) a - Vec3.nth ⟨-2, 1 / 2, 1 / 2⟩ a) /
                  Vec3.nth (⟨1, 2, 3⟩ : Vec3 ℚ) a)
                ((Vec3.nth (⟨1, 1, 1⟩ : Vec3 ℚ) a - Vec3.nth ⟨-2, 1 / 2, 1 / 2⟩ a) /
                  Vec3.nth (⟨1, 2, 3⟩ : Vec3 ℚ) a)) 100)) := by
  have h1 : ∀ a : Fin 3, Vec3.nth (⟨1, 2, 3⟩ : Vec3 ℚ) a ≠ 0 := by
    intro a
    fin_cases a <;> norm_num [Vec3.nth]
  have h2 : ∀ a : Fin 3, Vec3.nth (⟨0, 0, 0⟩ : Vec3 ℚ) a ≤ Vec3.nth (⟨1, 1, 1⟩ : Vec3 ℚ) a := by
    intro a
    fin_cases a <;> norm_num [Vec3.nth]
  exact ⟨⟨h1, h2⟩, aabb_hit_amended _ _ _ _ h1 h2⟩

/-- C2: the four cases of `ray_color`: depth `0` gives black; no hit in
`(0.001, ∞)` gives the background; a hit whose material fails to scatter
gives the emitted color alone; a scattering hit gives
`emitted + attenuation * ray_color(scattered, background, world, depth-1)`. -/
theorem ray_color_spec (world : Ray α → α → Option (HitRecord α × Material α))
    (background : Vec3 α) (r : Ray α) (depth : ℕ) :
    ray_color world background r 0 = ⟨0, 0, 0⟩ ∧
      (world r (1 / 1000) = none →
        ray_color world background r (depth + 1) = background) ∧
      (∀ rec mat, world r (1 / 1000) = some (rec, mat) →
        mat.scatter r rec = none →
        ray_color world background r (depth + 1) = mat.emitted rec.u rec.v rec.p) ∧
      (∀ rec mat attenuation scattered,
        world r (1 / 1000) = some (rec, mat) →
        mat.scatter r rec = some (attenuation, scattered) →
        ray_color world background r (depth + 1) =
          mat.emitted rec.u rec.v rec.p +
            attenuation * ray_color world background scattered depth) := by
  refine ⟨rfl, ?_, ?_, ?_⟩
  · intro h
    simp only [ray_color]
    rw [h]
  · intro rec mat h hs
    simp only [ray_color]
    rw [h]
    simp only [hs]
  · intro rec mat attenuation scattered h hs
    simp only [ray_color]
    rw [h]
    simp only [hs]

/-- A world that reports no hit, for the witness below. -/
def worldMiss : Ray ℚ → ℚ → Option (HitRecord ℚ × Material ℚ) := fun _ _ => none

/-- A sample hit record, for the witness below. -/
def recSample : HitRecord ℚ := ⟨⟨0, 0, -1⟩, ⟨0, 0, 1⟩, 1, 0, 0, true⟩

/-- An emissive, non-scattering material, for the witness below. -/
def matEmit : Material ℚ := ⟨fun _ _ _ => ⟨1, 2, 3⟩, fun _ _ => none⟩

/-- An always-scattering material, for the witness below. -/
def matScatter : Material ℚ :=
  ⟨fun _ _ _ => ⟨0, 0, 0⟩, fun _ rec => some (⟨1, 1, 1⟩, ⟨rec.p, rec.normal, 0⟩)⟩

/-- A world whose hits carry the emissive material. -/
def worldEmit : Ray ℚ → ℚ → Option (HitRecord ℚ × Material ℚ) :=
  fun _ _ => some (recSample, matEmit)

/-- A world whose hits carry the scattering material. -/
def worldScatter : Ray ℚ → ℚ → Option (HitRecord ℚ × Material ℚ) :=
  fun _ _ => some (recSample, matScatter)

/-- A sample ray, for the witness below. -/
def raySample : Ray ℚ := ⟨⟨0, 0, 0⟩, ⟨0, 0, -1⟩, 0⟩

/-- Witness for `ray_color_spec`: each of the four cases exercised on a
concrete world. -/
theorem ray_color_spec_witness :
    ray_color worldMiss ⟨1, 1, 1⟩ raySample 0 = ⟨0, 0, 0⟩ ∧
      (worldMiss raySample (1 / 1000) = none ∧
        ray_color worldMiss ⟨1, 1, 1⟩ raySample 1 = ⟨1, 1, 1⟩) ∧
      (worldEmit raySample (1 / 1000) = some (recSample, matEmit) ∧
        matEmit.scatter raySample recSample = none ∧
        ray_color worldEmit ⟨1, 1, 1⟩ raySample 1 =
          matEmit.emitted recSample.u recSample.v recSample.p) ∧
      (worldScatter raySample (1 / 1000) = some (recSample, matScatter) ∧
        matScatter.scatter raySample recSample =
          some (⟨1, 1, 1⟩, ⟨recSample.p, recSample.normal, 0⟩) ∧
        ray_color worldScatter ⟨1, 1, 1⟩ raySample 1 =
          matScatter.emitted recSample.u recSample.v recSample.p +
            (⟨1, 1, 1⟩ : Vec3 ℚ) *
              ray_color worldScatter ⟨1, 1, 1⟩ ⟨recSample.p, recSample.normal, 0⟩ 0) := by
  refine ⟨(ray_color_spec worldMiss ⟨1, 1, 1⟩ raySample 0).1,
    ⟨rfl, (ray_color_spec worldMiss ⟨1, 1, 1⟩ raySample 0).2.1 rfl⟩,
    ⟨rfl, rfl, (ray_color_spec worldEmit ⟨1, 1, 1⟩ raySample 0).2.2.1 recSample matEmit rfl rfl⟩,
    ⟨rfl, rfl, (ray_color_spec worldScatter ⟨1, 1, 1⟩ raySample 0).2.2.2 recSample matScatter
      ⟨1, 1, 1⟩ ⟨recSample.p, recSample.normal, 0⟩ rfl rfl⟩⟩

/-- C7: `get_sphere_uv` does not compute `v = acos(-y) / π`.  At the surface
point `(0, 1, 0)` the code computes `theta` with `f64::cos` instead of
`f64::acos` (contradicting the θ = acos(-y) displayed in the same post), so
`v = cos(-1)/π < 1`, whereas the claimed formula gives
`acos(-1)/π = 1`. -/
theorem get_sphere_uv_bug :
    (get_sphere_uv ⟨0, 1, 0⟩).2 = Real.cos 1 / Real.pi ∧
      Real.arccos (-1) / Real.pi = 1 ∧
      (get_sphere_uv ⟨0, 1, 0⟩).2 < 1 := by
  have hv : (get_sphere_uv ⟨0, 1, 0⟩).2 = Real.cos 1 / Real.pi := by
    simp [get_sphere_uv]
  refine ⟨hv, ?_, ?_⟩
  · rw [Real.arccos_neg_one, div_self Real.pi_ne_zero]
  · rw [hv, div_lt_one Real.pi_pos]
    have h1 := Real.cos_le_one 1
    have h2 := Real.pi_gt_three
    linarith

/-- For positive `ir`, Schlick's `r0` is the same whether computed from `ir`
or from `1/ir` (the code passes `refraction_ratio` to `reflectance`; the
claim states `r0` in terms of `ir` — these agree). -/
lemma reflectance_one_div (ir c : ℝ) (hir : 0 < ir) :
    Dielectric.reflectance c (1 / ir) = Dielectric.reflectance c ir := by
  have h0 : ir ≠ 0 := ne_of_gt hir
  have h1 : 1 + ir ≠ 0 := by positivity
  have key : (1 - 1 / ir) / (1 + 1 / ir) * ((1 - 1 / ir) / (1 + 1 / ir)) =
      (1 - ir) / (1 + ir) * ((1 - ir) / (1 + ir)) := by
    have h2 : 1 + 1 / ir ≠ 0 := by positivity
    field_simp
    ring
  simp only [Dielectric.reflectance]
  rw [key]

/-- C8: for `ir > 0`, `Dielectric::scatter` always succeeds, with attenuation
exactly `(1,1,1)`, refraction index `1/ir` on front faces and `ir`
otherwise, and the scattered direction is the reflection of the unit
incoming direction exactly when `refr * sin_theta > 1` or the Schlick
reflectance `r0 + (1-r0)(1-cos_theta)^5` with `r0 = ((1-ir)/(1+ir))^2`
exceeds the uniform draw, the Snell refraction otherwise. -/
theorem dielectric_scatter_spec (ir : ℝ) (r_in : Ray ℝ) (rec : HitRecord ℝ)
    (rand : ℝ) (hir : 0 < ir) :
    Dielectric.scatter ir r_in rec rand =
      some (⟨1, 1, 1⟩,
        ⟨rec.p,
          (let refr := if rec.front_face then 1 / ir else ir
           let u := unit_vector r_in.direction
           let cos_theta := min (Vec3.dot (-u) rec.normal) 1
           let sin_theta := Real.sqrt (1 - cos_theta * cos_theta)
           let r0 := ((1 - ir) / (1 + ir)) ^ 2
           if refr * sin_theta > 1 ∨ r0 + (1 - r0) * (1 - cos_theta) ^ 5 > rand then
             Vec3.reflect u rec.normal
           else
             Vec3.refract u rec.normal refr),
          r_in.time⟩) := by
  have hkey : ∀ c : ℝ,
      Dielectric.reflectance c (if rec.front_face then 1 / ir else ir) =
        ((1 - ir) / (1 + ir)) ^ 2 +
          (1 - ((1 - ir) / (1 + ir)) ^ 2) * (1 - c) ^ 5 := by
    intro c
    by_cases hf : rec.front_face
    · rw [if_pos hf, reflectance_one_div ir c hir]
      simp only [Dielectric.reflectance]
      ring
    · rw [if_neg hf]
      simp only [Dielectric.reflectance]
      ring
  unfold Dielectric.scatter
  simp only [hkey]

/-- A sample real-valued hit record, for the witness below. -/
def recSampleR : HitRecord ℝ := ⟨⟨0, 0, -1⟩, ⟨0, 0, 1⟩, 1, 0, 0, true⟩

/-- Witness for `dielectric_scatter_spec` at `ir = 3/2` on a concrete ray,
record, and draw. -/
theorem dielectric_scatter_spec_witness :
    (0 : ℝ) < 3 / 2 ∧
      Dielectric.scatter (3 / 2) ⟨⟨0, 0, 0⟩, ⟨0, 0, -1⟩, 0⟩ recSampleR (1 / 2) =
        some (⟨1, 1, 1⟩,
          ⟨recSampleR.p,
            (let refr := if recSampleR.front_face then 1 / (3 / 2 : ℝ) else 3 / 2
             let u := unit_vector (⟨0, 0, -1⟩ : Vec3 ℝ)
             let cos_theta := min (Vec3.dot (-u) recSampleR.normal) 1
             let sin_theta := Real.sqrt (1 - cos_theta * cos_theta)
             let r0 := ((1 - (3 / 2 : ℝ)) / (1 + 3 / 2)) ^ 2
             if refr * sin_theta > 1 ∨ r0 + (1 - r0) * (1 - cos_theta) ^ 5 > 1 / 2 then
               Vec3.reflect u recSampleR.normal
             else
               Vec3.refract u recSampleR.normal refr),
            (0 : ℝ)⟩) :=
  ⟨by norm_num,
    dielectric_scatter_spec (3 / 2) ⟨⟨0, 0, 0⟩, ⟨0, 0, -1⟩, 0⟩ recSampleR (1 / 2)
      (by norm_num)⟩

lemma transp_transp (a b x : ℕ) : transp a b (transp a b x) = x := by
  unfold transp
  split_ifs <;> omega

lemma transp_lt_256 {a b x : ℕ} (ha : a < 256) (hb : b < 256) (hx : x < 256) :
    transp a b x < 256 := by
  unfold transp
  split_ifs <;> omega

lemma transp_eq_self {a b x : ℕ} (hxa : x ≠ a) (hxb : x ≠ b) : transp a b x = x := by
  unfold transp
  split_ifs <;> omega

/-- A swap of two entries with indices at most `254` preserves the
permutation-table invariant. -/
lemma arrSwap_permTable {p : ℕ → ℤ} {a b : ℕ} (ha : a ≤ 254) (hb : b ≤ 254)
    (hp : PermTable p) : PermTable (arrSwap p a b) := by
  obtain ⟨hbound, hinj, hlast⟩ := hp
  refine ⟨?_, ?_, ?_⟩
  · intro m hm
    exact hbound _ (transp_lt_256 (by omega) (by omega) hm)
  · intro m1 hm1 m2 hm2 heq
    have h1 := hinj _ (transp_lt_256 (by omega) (by omega) hm1) _
      (transp_lt_256 (by omega) (by omega) hm2) heq
    have h2 := congrArg (transp a b) h1
    rwa [transp_transp, transp_transp] at h2
  · show p (transp a b 255) = 255
    rw [transp_eq_self (by omega) (by omega)]
    exact hlast

/-- Folding swaps whose indices all stay at most `254` preserves the
permutation-table invariant. -/
lemma foldl_permTable (targets : ℕ → ℕ) :
    ∀ (l : List ℕ) (p : ℕ → ℤ), (∀ i ∈ l, i ≤ 254 ∧ targets i ≤ 254) →
      PermTable p → PermTable (l.foldl (fun q i => arrSwap q i (targets i)) p) := by
  intro l
  induction l with
  | nil => exact fun p _ hp => hp
  | cons hd tl ih =>
    intro p hmem hp
    rw [List.foldl_cons]
    apply ih
    · exact fun i hi => hmem i (List.mem_cons_of_mem _ hi)
    · exact arrSwap_permTable (hmem hd (List.mem_cons_self _ _)).1
        (hmem hd (List.mem_cons_self _ _)).2 hp

/-- C10: if every random draw `target_i` is an earlier index (`target_i < i`,
the contract of `random_usize_in_range(0, i)`), then `perlin_generate_perm`
returns a permutation of `0..255` whose last entry is still `255` (the loop
runs `i = 254, …, 1`, so slot `255` is never touched), and every table
access in `Perlin::noise` is in bounds: the `& 255` masks land in
`[0, 256)` and the XOR of three table entries stays in `[0, 256)`. -/
theorem perlin_noise_safety (targets : ℕ → ℕ)
    (ht : ∀ i, 1 ≤ i → i ≤ 254 → targets i < i) :
    PermTable (perlin_generate_perm targets) ∧ hashInBounds := by
  constructor
  · unfold perlin_generate_perm permute
    apply foldl_permTable
    · intro i hi
      have h1 : i ∈ List.range' 1 254 := List.mem_reverse.mp hi
      have h2 : 1 ≤ i ∧ i < 1 + 254 := by
        constructor
        · exact (List.mem_range'_1.mp h1).1
        · exact (List.mem_range'_1.mp h1).2
      have h3 := ht i h2.1 (by omega)
      omega
    · refine ⟨fun m hm => ⟨Int.ofNat_nonneg m, ?_⟩, fun m1 _ m2 _ h => ?_, rfl⟩
      · show (m : ℤ) < 256
        exact_mod_cast hm
      · have h2 : (m1 : ℤ) = m2 := h
        exact_mod_cast h2
  · intro px py pz hpx hpy hpz i j k
    have hmask : ∀ x : ℤ, mask255 x < 256 := by
      intro x
      unfold mask255
      have h1 := Int.emod_lt_of_pos x (by norm_num : (0 : ℤ) < 256)
      have h2 := Int.emod_nonneg x (by norm_num : (256 : ℤ) ≠ 0)
      omega
    refine ⟨hmask i, hmask j, hmask k, ?_⟩
    have hx := hpx.1 _ (hmask i)
    have hy := hpy.1 _ (hmask j)
    have hz := hpz.1 _ (hmask k)
    have hxor : ∀ u v : ℕ, u < 256 → v < 256 → u ^^^ v < 256 := by
      intro u v hu hv
      have he : u ^^^ v = Nat.bitwise bne u v := rfl
      have h : Nat.bitwise bne u v < 2 ^ 8 :=
        Nat.bitwise_lt (by norm_num; omega) (by norm_num; omega)
      norm_num at h
      rw [he]
      exact h
    unfold perlinHash
    exact hxor _ _ (hxor _ _ (by omega) (by omega)) (by omega)

/-- Witness for `perlin_noise_safety` with the oracle that always draws
index `0`. -/
theorem perlin_noise_safety_witness :
    (∀ i : ℕ, 1 ≤ i → i ≤ 254 → (fun _ : ℕ => 0) i < i) ∧
      (PermTable (perlin_generate_perm fun _ => 0) ∧ hashInBounds) :=
  ⟨fun _ h1 _ => h1, perlin_noise_safety (fun _ => 0) (fun _ h1 _ => h1)⟩

/-- Enlarging a box can only turn an axis test from fail to pass. -/
lemma axisTest_mono {b1 b2 : Aabb α} (r : Ray α) (t_min t_max : α) (a : Fin 3)
    (hmin : b2.minimum.nth a ≤ b1.minimum.nth a)
    (hmax : b1.maximum.nth a ≤ b2.maximum.nth a)
    (h : b1.axisTest r t_min t_max a = true) : b2.axisTest r t_min t_max a = true := by
  unfold Aabb.axisTest at h ⊢
  simp only [ite_gt_eq_max, ite_lt_eq_min, Bool.not_eq_true', decide_eq_false_iff_not,
    not_le] at h ⊢
  rcases lt_or_le ((1 : α) / r.direction.nth a) 0 with hneg | hpos
  · rw [if_pos hneg, if_pos hneg] at h ⊢
    have h0 : (b2.maximum.nth a - r.origin.nth a) * (1 / r.direction.nth a) ≤
        (b1.maximum.nth a - r.origin.nth a) * (1 / r.direction.nth a) :=
      mul_le_mul_of_nonpos_right (by linarith) hneg.le
    have h1 : (b1.minimum.nth a - r.origin.nth a) * (1 / r.direction.nth a) ≤
        (b2.minimum.nth a - r.origin.nth a) * (1 / r.direction.nth a) :=
      mul_le_mul_of_nonpos_right (by linarith) hneg.le
    calc max ((b2.maximum.nth a - r.origin.nth a) * (1 / r.direction.nth a)) t_min
        ≤ max ((b1.maximum.nth a - r.origin.nth a) * (1 / r.direction.nth a)) t_min :=
          max_le_max h0 le_rfl
      _ < min ((b1.minimum.nth a - r.origin.nth a) * (1 / r.direction.nth a)) t_max := h
      _ ≤ min ((b2.minimum.nth a - r.origin.nth a) * (1 / r.direction.nth a)) t_max :=
          min_le_min h1 le_rfl
  · rw [if_neg (not_lt.mpr hpos), if_neg (not_lt.mpr hpos)] at h ⊢
    have h0 : (b2.minimum.nth a - r.origin.nth a) * (1 / r.direction.nth a) ≤
        (b1.minimum.nth a - r.origin.nth a) * (1 / r.direction.nth a) :=
      mul_le_mul_of_nonneg_right (by linarith) hpos
    have h1 : (b1.maximum.nth a - r.origin.nth a) * (1 / r.direction.nth a) ≤
        (b2.maximum.nth a - r.origin.nth a) * (1 / r.direction.nth a) :=
      mul_le_mul_of_nonneg_right (by linarith) hpos
    calc max ((b2.minimum.nth a - r.origin.nth a) * (1 / r.direction.nth a)) t_min
        ≤ max ((b1.minimum.nth a - r.origin.nth a) * (1 / r.direction.nth a)) t_min :=
          max_le_max h0 le_rfl
      _ < min ((b1.maximum.nth a - r.origin.nth a) * (1 / r.direction.nth a)) t_max := h
      _ ≤ min ((b2.maximum.nth a - r.origin.nth a) * (1 / r.direction.nth a)) t_max :=
          min_le_min h1 le_rfl

/-- Enlarging a box can only turn `Aabb::hit` from fail to pass. -/
lemma aabb_hit_mono {b1 b2 : Aabb α} (r : Ray α) (t_min t_max : α)
    (hmin : ∀ a : Fin 3, b2.minimum.nth a ≤ b1.minimum.nth a)
    (hmax : ∀ a : Fin 3, b1.maximum.nth a ≤ b2.maximum.nth a)
    (h : b1.hit r t_min t_max = true) : b2.hit r t_min t_max = true := by
  unfold Aabb.hit at h ⊢
  simp only [Bool.and_eq_true] at h ⊢
  exact ⟨⟨axisTest_mono r t_min t_max 0 (hmin 0) (hmax 0) h.1.1,
    axisTest_mono r t_min t_max 1 (hmin 1) (hmax 1) h.1.2⟩,
    axisTest_mono r t_min t_max 2 (hmin 2) (hmax 2) h.2⟩

lemma surrounding_box_min_left (b1 b2 : Aabb α) (a : Fin 3) :
    (Aabb.surrounding_box b1 b2).minimum.nth a ≤ b1.minimum.nth a := by
  fin_cases a <;> simp [Aabb.surrounding_box]

lemma surrounding_box_min_right (b1 b2 : Aabb α) (a : Fin 3) :
    (Aabb.surrounding_box b1 b2).minimum.nth a ≤ b2.minimum.nth a := by
  fin_cases a <;> simp [Aabb.surrounding_box]

lemma surrounding_box_max_left (b1 b2 : Aabb α) (a : Fin 3) :
    b1.maximum.nth a ≤ (Aabb.surrounding_box b1 b2).maximum.nth a := by
  fin_cases a <;> simp [Aabb.surrounding_box]

lemma surrounding_box_max_right (b1 b2 : Aabb α) (a : Fin 3) :
    b2.maximum.nth a ≤ (Aabb.surrounding_box b1 b2).maximum.nth a := by
  fin_cases a <;> simp [Aabb.surrounding_box]

/-- Two closest-candidate hit functions over membership-equal candidate sets
agree everywhere. -/
lemma hitBehav_unique {f g : α → α → Option α} {T U : List α}
    (hf : HitBehav f T) (hg : HitBehav g U) (hTU : ∀ x, x ∈ T ↔ x ∈ U)
    (t_min t_max : α) : f t_min t_max = g t_min t_max := by
  obtain ⟨hf1, hf2⟩ := hf
  obtain ⟨hg1, hg2⟩ := hg
  rcases hfv : f t_min t_max with _ | t
  · rcases hgv : g t_min t_max with _ | u
    · rfl
    · obtain ⟨huU, h1, h2, _⟩ := hg1 _ _ _ hgv
      exact absurd ⟨h1, h2⟩ (hf2 _ _ hfv u ((hTU u).mpr huU))
  · obtain ⟨htT, h1, h2, hmin⟩ := hf1 _ _ _ hfv
    rcases hgv : g t_min t_max with _ | u
    · exact absurd ⟨h1, h2⟩ (hg2 _ _ hgv t ((hTU t).mp htT))
    · obtain ⟨huU, hu1, hu2, humin⟩ := hg1 _ _ _ hgv
      have h3 := hmin u ((hTU u).mpr huU) hu1 hu2
      have h4 := humin t ((hTU t).mp htT) h1 h2
      rw [le_antisymm h3 h4]

/-- One step of the linear scan preserves the scan invariant, extending the
scanned candidate set by the current object's candidates. -/
lemma scanInv_step {t_min t_max : α} {S : List α} {st : Option α × α} {o : Obj α}
    {To : List α} (r : Ray α) (ho : HitBehav (o.hit r) To)
    (hst : ScanInv t_min t_max S st) :
    ScanInv t_min t_max (S ++ To)
      (match o.hit r t_min st.2 with
       | some t2 => (some t2, t2)
       | none => st) := by
  rcases hov : o.hit r t_min st.2 with _ | t2
  · obtain ⟨rec, c⟩ := st
    rcases rec with _ | t
    · obtain ⟨hc, hnone⟩ := hst
      refine ⟨hc, ?_⟩
      intro u hu
      rcases List.mem_append.mp hu with h | h
      · exact hnone u h
      · have := ho.2 _ _ hov u h
        rwa [hc] at this
    · obtain ⟨hc, htS, ht1, ht2, htmin⟩ := hst
      refine ⟨hc, List.mem_append_left _ htS, ht1, ht2, ?_⟩
      intro u hu hu1 hu2
      rcases List.mem_append.mp hu with h | h
      · exact htmin u h hu1 hu2
      · by_contra hlt
        refine ho.2 _ _ hov u h ⟨hu1, ?_⟩
        rw [hc]
        linarith [not_le.mp hlt]
  · obtain ⟨hmem, h1, h2, hmin⟩ := ho.1 _ _ _ hov
    obtain ⟨rec, c⟩ := st
    rcases rec with _ | t
    · obtain ⟨hc, hnone⟩ := hst
      rw [hc] at h2 hmin
      refine ⟨rfl, List.mem_append_right _ hmem, h1, h2, ?_⟩
      intro u hu hu1 hu2
      rcases List.mem_append.mp hu with h | h
      · exact absurd ⟨hu1, hu2⟩ (hnone u h)
      · exact hmin u h hu1 hu2
    · obtain ⟨hc, htS, ht1, ht2, htmin⟩ := hst
      rw [hc] at h2 hmin
      refine ⟨rfl, List.mem_append_right _ hmem, h1, by linarith, ?_⟩
      intro u hu hu1 hu2
      rcases List.mem_append.mp hu with h | h
      · have := htmin u h hu1 hu2
        linarith
      · rcases lt_or_le u t with hut | hut
        · exact hmin u h hu1 hut
        · linarith

/-- Folding the scan over a list of objects preserves the invariant. -/
lemma scanInv_fold (r : Ray α) (Ts : Obj α → List α) :
    ∀ (objs : List (Obj α)) (S : List α) (st : Option α × α) (t_min t_max : α),
      (∀ o ∈ objs, HitBehav (o.hit r) (Ts o)) → ScanInv t_min t_max S st →
      ScanInv t_min t_max (S ++ objsT Ts objs)
        (objs.foldl
          (fun st o =>
            match o.hit r t_min st.2 with
            | some t2 => (some t2, t2)
            | none => st)
          st) := by
  intro objs
  induction objs with
  | nil =>
    intro S st t_min t_max _ hst
    simpa [objsT] using hst
  | cons o tl ih =>
    intro S st t_min t_max hobjs hst
    rw [List.foldl_cons]
    have hstep := scanInv_step r (hobjs o (List.mem_cons_self _ _)) hst
    have hrest := ih (S ++ Ts o) _ t_min t_max
      (fun o ho => hobjs o (List.mem_cons_of_mem _ ho)) hstep
    rw [List.append_assoc] at hrest
    simpa [objsT] using hrest

/-- `HitBehav` only depends on the members of the candidate list. -/
lemma hitBehav_congr {f : α → α → Option α} {T U : List α}
    (hTU : ∀ x, x ∈ T ↔ x ∈ U) (hf : HitBehav f T) : HitBehav f U := by
  obtain ⟨h1, h2⟩ := hf
  constructor
  · intro t_min t_max t hv
    obtain ⟨hm, ha, hb, hmin⟩ := h1 _ _ _ hv
    exact ⟨(hTU t).mp hm, ha, hb, fun u hu => hmin u ((hTU u).mpr hu)⟩
  · intro t_min t_max hv u hu
    exact h2 _ _ hv u ((hTU u).mpr hu)

/-- `HittableList::hit` reports the closest candidate of the whole list. -/
lemma listHit_behav (r : Ray α) (Ts : Obj α → List α) (objs : List (Obj α))
    (h : ∀ o ∈ objs, HitBehav (o.hit r) (Ts o)) :
    HitBehav (fun t_min t_max => listHit objs r t_min t_max) (objsT Ts objs) := by
  have hinit : ∀ t_min t_max : α, ScanInv t_min t_max ([] : List α)
      ((none : Option α), t_max) :=
    fun _ _ => ⟨rfl, fun u hu => absurd hu (List.not_mem_nil u)⟩
  constructor
  · intro t_min t_max t hv
    replace hv : listHit objs r t_min t_max = some t := hv
    have hinv := scanInv_fold r Ts objs [] (none, t_max) t_min t_max h
      (hinit t_min t_max)
    rw [List.nil_append] at hinv
    unfold listHit at hv
    rcases hst : objs.foldl
        (fun st o =>
          match o.hit r t_min st.2 with
          | some t2 => (some t2, t2)
          | none => st)
        ((none : Option α), t_max) with ⟨rec, c⟩
    rw [hst] at hv hinv
    rcases rec with _ | t2
    · exact absurd hv (by simp)
    · obtain rfl : t2 = t := by simpa using hv
      obtain ⟨_, hmem, h1, h2, hmin⟩ := hinv
      exact ⟨hmem, h1, h2, hmin⟩
  · intro t_min t_max hv
    replace hv : listHit objs r t_min t_max = none := hv
    have hinv := scanInv_fold r Ts objs [] (none, t_max) t_min t_max h
      (hinit t_min t_max)
    rw [List.nil_append] at hinv
    unfold listHit at hv
    rcases hst : objs.foldl
        (fun st o =>
          match o.hit r t_min st.2 with
          | some t2 => (some t2, t2)
          | none => st)
        ((none : Option α), t_max) with ⟨rec, c⟩
    rw [hst] at hv hinv
    rcases rec with _ | t2
    · exact hinv.2
    · exact absurd hv (by simp)

lemma mem_objsT {β : Type*} {Ts : Obj β → List β} {x : β} {objs : List (Obj β)} :
    x ∈ objsT Ts objs ↔ ∃ o ∈ objs, x ∈ Ts o := by
  simp [objsT]

/-- `BvhNode::hit` reports the closest candidate of the subtree's leaves, and
the node box is conservative for them. -/
lemma bvh_behav (r : Ray α) (Ts : Obj α → List α) :
    ∀ t : BvhTree α, WellBuilt t →
      (∀ o ∈ t.leaves, HitBehav (o.hit r) (Ts o) ∧ BoxSound o.box r (Ts o)) →
      HitBehav (fun t_min t_max => t.hit r t_min t_max) (objsT Ts t.leaves) ∧
        BoxSound t.box r (objsT Ts t.leaves) := by
  intro t
  induction t with
  | leaf o =>
    intro _ hleaf
    have h := hleaf o (by simp [BvhTree.leaves])
    constructor
    · refine hitBehav_congr ?_ h.1
      intro x
      simp [objsT, BvhTree.leaves]
    · rintro t_min t_max ⟨u, hu, h1, h2⟩
      refine h.2 t_min t_max ⟨u, ?_, h1, h2⟩
      simpa [objsT, BvhTree.leaves] using hu
  | node l rt b ihl ihr =>
    intro hwb hleaf
    obtain ⟨hwl, hwr, hbox⟩ := hwb
    obtain ⟨hlb, hlbox⟩ := ihl hwl (fun o ho => hleaf o (by
      simp only [BvhTree.leaves, List.mem_append]
      exact Or.inl ho))
    obtain ⟨hrb, hrbox⟩ := ihr hwr (fun o ho => hleaf o (by
      simp only [BvhTree.leaves, List.mem_append]
      exact Or.inr ho))
    have hleq : objsT Ts (BvhTree.leaves (.node l rt b)) =
        objsT Ts l.leaves ++ objsT Ts rt.leaves := by
      simp [BvhTree.leaves, objsT]
    have hboxsound : BoxSound b r (objsT Ts l.leaves ++ objsT Ts rt.leaves) := by
      rintro t_min t_max ⟨u, hu, h1, h2⟩
      subst hbox
      rcases List.mem_append.mp hu with h | h
      · exact aabb_hit_mono r t_min t_max (surrounding_box_min_left _ _)
          (surrounding_box_max_left _ _) (hlbox t_min t_max ⟨u, h, h1, h2⟩)
      · exact aabb_hit_mono r t_min t_max (surrounding_box_min_right _ _)
          (surrounding_box_max_right _ _) (hrbox t_min t_max ⟨u, h, h1, h2⟩)
    refine ⟨⟨?_, ?_⟩, ?_⟩
    · intro t_min t_max t hv
      rw [hleq]
      replace hv : BvhTree.hit (.node l rt b) r t_min t_max = some t := hv
      rw [BvhTree.hit] at hv
      by_cases hb : b.hit r t_min t_max = false
      · rw [if_pos hb] at hv
        exact absurd hv (by simp)
      · rw [if_neg hb] at hv
        rcases hlv : l.hit r t_min t_max with _ | t1
        · rw [hlv] at hv
          obtain ⟨hmem, h1, h2, hmin⟩ := hrb.1 _ _ _ hv
          refine ⟨List.mem_append_right _ hmem, h1, h2, ?_⟩
          intro u hu hu1 hu2
          rcases List.mem_append.mp hu with h | h
          · exact absurd ⟨hu1, hu2⟩ (hlb.2 _ _ hlv u h)
          · exact hmin u h hu1 hu2
        · rw [hlv] at hv
          replace hv : (match rt.hit r t_min t1 with
            | some t2 => some t2
            | none => some t1) = some t := hv
          obtain ⟨hmem1, h11, h12, hmin1⟩ := hlb.1 _ _ _ hlv
          rcases hrv : rt.hit r t_min t1 with _ | t2
          · rw [hrv] at hv
            obtain rfl : t1 = t := by simpa using hv
            refine ⟨List.mem_append_left _ hmem1, h11, h12, ?_⟩
            intro u hu hu1 hu2
            rcases List.mem_append.mp hu with h | h
            · exact hmin1 u h hu1 hu2
            · by_contra hlt
              exact hrb.2 _ _ hrv u h ⟨hu1, by linarith [not_le.mp hlt]⟩
          · rw [hrv] at hv
            obtain rfl : t2 = t := by simpa using hv
            obtain ⟨hmem2, h21, h22, hmin2⟩ := hrb.1 _ _ _ hrv
            refine ⟨List.mem_append_right _ hmem2, h21, by linarith, ?_⟩
            intro u hu hu1 hu2
            rcases List.mem_append.mp hu with h | h
            · have := hmin1 u h hu1 hu2
              linarith
            · rcases lt_or_le u t1 with hut | hut
              · exact hmin2 u h hu1 hut
              · linarith
    · intro t_min t_max hv
      rw [hleq]
      replace hv : BvhTree.hit (.node l rt b) r t_min t_max = none := hv
      rw [BvhTree.hit] at hv
      by_cases hb : b.hit r t_min t_max = false
      · intro u hu h12
        have htrue := hboxsound t_min t_max ⟨u, hu, h12.1, h12.2⟩
        rw [htrue] at hb
        exact absurd hb (by simp)
      · rw [if_neg hb] at hv
        rcases hlv : l.hit r t_min t_max with _ | t1
        · rw [hlv] at hv
          intro u hu h12
          rcases List.mem_append.mp hu with h | h
          · exact hlb.2 _ _ hlv u h h12
          · exact hrb.2 _ _ hv u h h12
        · rw [hlv] at hv
          replace hv : (match rt.hit r t_min t1 with
            | some t2 => some t2
            | none => some t1) = none := hv
          rcases hrv : rt.hit r t_min t1 with _ | t2 <;> rw [hrv] at hv <;>
            exact absurd hv (by simp)
    · have hgoal : BoxSound b r (objsT Ts (BvhTree.leaves (.node l rt b))) := by
        rw [hleq]
        exact hboxsound
      exact hgoal

/-- Every tree built by `BvhNode::new` stores surrounding boxes at interior
nodes. -/
lemma wellBuilt_build (rng : ℕ → Fin 3) :
    ∀ (n ctr : ℕ) (objs : List (Obj α)), objs.length ≤ n →
      WellBuilt (buildBvh rng ctr objs) := by
  intro n
  induction n with
  | zero =>
    intro ctr objs hlen
    rw [List.length_eq_zero.mp (Nat.le_zero.mp hlen)]
    rw [buildBvh]
    trivial
  | succ n ih =>
    intro ctr objs hlen
    match objs with
    | [] =>
      rw [buildBvh]
      trivial
    | [a] =>
      rw [buildBvh]
      exact ⟨trivial, trivial, rfl⟩
    | [a, b] =>
      rw [buildBvh]
      split
      · exact ⟨trivial, trivial, rfl⟩
      · exact ⟨trivial, trivial, rfl⟩
    | a :: b :: c :: tl =>
      rw [buildBvh]
      refine ⟨ih _ _ ?_, ih _ _ ?_, rfl⟩
      · simp only [List.length_take, List.length_mergeSort, List.length_cons]
        simp only [List.length_cons] at hlen
        omega
      · simp only [List.length_drop, List.length_mergeSort, List.length_cons]
        simp only [List.length_cons] at hlen
        omega

/-- The leaves of the built tree are exactly (as a set) the input objects. -/
lemma mem_leaves_build (rng : ℕ → Fin 3) :
    ∀ (n ctr : ℕ) (objs : List (Obj α)), objs.length ≤ n → objs ≠ [] →
      ∀ o, o ∈ (buildBvh rng ctr objs).leaves ↔ o ∈ objs := by
  intro n
  induction n with
  | zero =>
    intro ctr objs hlen hne
    exact absurd (List.length_eq_zero.mp (Nat.le_zero.mp hlen)) hne
  | succ n ih =>
    intro ctr objs hlen hne o
    match objs with
    | [] => exact absurd rfl hne
    | [a] =>
      rw [buildBvh]
      simp [BvhTree.leaves]
    | [a, b] =>
      rw [buildBvh]
      split
      · simp [BvhTree.leaves]
      · simp only [BvhTree.leaves, List.mem_append, List.mem_singleton, List.mem_cons,
          List.not_mem_nil, or_false]
        tauto
    | a :: b :: c :: tl =>
      rw [buildBvh]
      have hslen : ((a :: b :: c :: tl).mergeSort
          (boxLe (rng ctr))).length = (a :: b :: c :: tl).length :=
        List.length_mergeSort _
      have hlen3 : 3 ≤ (a :: b :: c :: tl).length := by
        simp only [List.length_cons]
        omega
      have hmid : 1 ≤ (a :: b :: c :: tl).length / 2 ∧
          (a :: b :: c :: tl).length / 2 + 2 ≤ (a :: b :: c :: tl).length := by
        omega
      have htake : (((a :: b :: c :: tl).mergeSort (boxLe (rng ctr))).take
          ((a :: b :: c :: tl).length / 2)).length ≤ n := by
        simp only [List.length_take, hslen]
        simp only [List.length_cons] at hlen ⊢
        omega
      have hdrop : (((a :: b :: c :: tl).mergeSort (boxLe (rng ctr))).drop
          ((a :: b :: c :: tl).length / 2)).length ≤ n := by
        simp only [List.length_drop, hslen]
        simp only [List.length_cons] at hlen ⊢
        omega
      have htake_ne : ((a :: b :: c :: tl).mergeSort (boxLe (rng ctr))).take
          ((a :: b :: c :: tl).length / 2) ≠ [] := by
        intro hc
        have := congrArg List.length hc
        simp only [List.length_take, hslen, List.length_nil] at this
        omega
      have hdrop_ne : ((a :: b :: c :: tl).mergeSort (boxLe (rng ctr))).drop
          ((a :: b :: c :: tl).length / 2) ≠ [] := by
        intro hc
        have := congrArg List.length hc
        simp only [List.length_drop, hslen, List.length_nil] at this
        omega
      show o ∈ BvhTree.leaves (.node _ _ _) ↔ _
      rw [BvhTree.leaves]
      rw [List.mem_append, ih _ _ htake htake_ne o, ih _ _ hdrop hdrop_ne o,
        ← List.mem_append, List.take_append_drop, List.mem_mergeSort]

/-- C1 (amended): for every nonempty scene of objects whose `hit` methods
report the closest of a fixed candidate set and whose bounding boxes are
conservative for those candidates, the BVH built by `BvhNode::new` (for any
sequence of random axis draws) traverses to exactly the same closest hit as
the exhaustive linear scan `HittableList::hit`, on every ray and interval. -/
theorem bvh_hit_eq_listHit (rng : ℕ → Fin 3) (ctr : ℕ) (objs : List (Obj α))
    (r : Ray α) (t_min t_max : α) (hne : objs ≠ [])
    (hs : ∀ o ∈ objs, SoundObj o r) :
    (buildBvh rng ctr objs).hit r t_min t_max = listHit objs r t_min t_max := by
  classical
  set Ts : Obj α → List α :=
    fun o => if h : SoundObj o r then Classical.choose h else [] with hTs
  have hTs_spec : ∀ o ∈ objs, HitBehav (o.hit r) (Ts o) ∧ BoxSound o.box r (Ts o) := by
    intro o ho
    have h := hs o ho
    rw [hTs]
    simp only [dif_pos h]
    exact Classical.choose_spec h
  have hwb := wellBuilt_build rng objs.length ctr objs le_rfl
  have hmem := mem_leaves_build rng objs.length ctr objs le_rfl hne
  have htree := bvh_behav r Ts (buildBvh rng ctr objs) hwb
    (fun o ho => hTs_spec o ((hmem o).mp ho))
  have hlist := listHit_behav r Ts objs (fun o ho => (hTs_spec o ho).1)
  exact hitBehav_unique htree.1 hlist
    (fun x => by
      rw [mem_objsT, mem_objsT]
      constructor
      · rintro ⟨o, ho, hx⟩
        exact ⟨o, (hmem o).mp ho, hx⟩
      · rintro ⟨o, ho, hx⟩
        exact ⟨o, (hmem o).mpr ho, hx⟩)
    t_min t_max

/-- An object that never hits, with the zero box — trivially sound. -/
def objMiss : Obj ℚ := ⟨fun _ _ _ => none, ⟨⟨0, 0, 0⟩, ⟨0, 0, 0⟩⟩⟩

/-- Witness for `bvh_hit_eq_listHit` on the one-object scene `[objMiss]`. -/
theorem bvh_hit_eq_listHit_witness :
    (([objMiss] : List (Obj ℚ)) ≠ [] ∧ ∀ o ∈ [objMiss], SoundObj o raySample) ∧
      (buildBvh (fun _ => 0) 0 [objMiss]).hit raySample 0 1 =
        listHit [objMiss] raySample 0 1 := by
  have hne : ([objMiss] : List (Obj ℚ)) ≠ [] := by simp
  have hs : ∀ o ∈ [objMiss], SoundObj o raySample := by
    intro o ho
    rw [List.mem_singleton] at ho
    subst ho
    refine ⟨[], ⟨?_, ?_⟩, ?_⟩
    · intro t_min t_max t hv
      exact absurd hv (by simp [objMiss])
    · intro t_min t_max _ u hu
      exact absurd hu (List.not_mem_nil u)
    · rintro t_min t_max ⟨u, hu, _⟩
      exact absurd hu (List.not_mem_nil u)
  exact ⟨⟨hne, hs⟩, bvh_hit_eq_listHit (fun _ => 0) 0 [objMiss] raySample 0 1 hne hs⟩

/-- The `XzRect` of the C6 failing input, as a scene object: its `hit`
method together with the bounding box the repository code reports. -/
def xzRectObj : Obj ℚ :=
  ⟨fun r t_min t_max => XzRect.hit ⟨0, 1, 2, 3, 5⟩ r t_min t_max,
   XzRect.bounding_box ⟨0, 1, 2, 3, 5⟩⟩

/-- A ray that hits that rectangle at `t = 1/2` but whose `z` stays near
`9/4`, far from the `[5 ± 10⁻⁴]` `z`-slab of the mis-assembled bounding
box. -/
def rayGrazing : Ray ℚ := ⟨⟨1 / 4, 0, 9 / 4⟩, ⟨1, 10, 1 / 1000⟩, 0⟩

/-- C1 counterexample: with the repository's own `XzRect` (an object that
"has a bounding box" — `bounding_box` returns `true`), the linear scan finds
the hit at `t = 1/2` but the BVH built over the same one-object scene prunes
it away, because the mis-assembled box (C6) fails the slab test on the ray.
BVH traversal and linear search disagree. -/
theorem bvh_hit_counterexample :
    listHit [xzRectObj] rayGrazing 0 100 = some (1 / 2) ∧
      (buildBvh (fun _ => 0) 0 [xzRectObj]).hit rayGrazing 0 100 = none := by
  constructor
  · norm_num [listHit, xzRectObj, XzRect.hit, rayGrazing]
  · rw [buildBvh]
    norm_num [BvhTree.hit, Aabb.hit, Aabb.axisTest, Aabb.surrounding_box,
      xzRectObj, XzRect.bounding_box, rayGrazing]

end RayTracer
